import Mathlib

/-
Verification of the tripwirs file-integrity monitor.

This file is a shallow embedding of the relevant parts of the sources:
  * src/crypto.rs    — the ChaCha20-Poly1305 envelope with a persisted nonce
                       suffix (used via src/config.rs for the policy file);
  * src/config.rs    — the policy record and plain-text policy parser;
  * src/tripwirs.rs  — a second, private AES-256-GCM envelope (used for the
                       integrity database), the file hasher, the tree scanner,
                       the database builder and the comparator.

Machine bytes are modelled as natural numbers (with bounds stated where they
matter), files as maps from path strings to byte lists, and the external
`ring` AEAD primitives as an ideal authenticated cipher: the 16-byte tag is
an injective commitment to (algorithm, key, nonce, plaintext), so that a
round trip with the sealing key succeeds and any differing key is rejected.
The external `bincode` codec is deterministic and invertible, so records are
identified with their encodings; the external XXH3-64 digest is modelled as a
fixed executable function of the absorbed byte stream (the code constructs it
with Xxh3::new(), i.e. without any seed, so no key enters the model either).
-/

/-- Big-endian byte expansion of a natural number to `n` bytes, the model of
`u128::to_be_bytes` (with `n = 16`). -/
def beBytesN : Nat → Nat → List Nat
  | 0, _ => []
  | n + 1, x => (x / 256 ^ n % 256) :: beBytesN n x

/-- Big-endian byte-list parsing, the model of `u128::from_be_bytes` applied
to the 16 bytes popped off the end of the file. -/
def parseBe (l : List Nat) : Nat :=
  l.foldl (fun a b => a * 256 + b) 0

/-- Base-257 value of a byte list; used inside the ideal AEAD tag as an
injective commitment to a byte string of known length. -/
def beVal257 (l : List Nat) : Nat :=
  l.foldl (fun a b => a * 257 + b) 0

/-- The two AEAD algorithms appearing in the sources: `CHACHA20_POLY1305`
in src/crypto.rs and `AES_256_GCM` in src/tripwirs.rs. Both have 256-bit
keys, 96-bit nonces and 128-bit tags. -/
inductive Algo
  | chacha20poly1305
  | aes256gcm
deriving DecidableEq

/-- Key length (bytes) of both algorithms: `algo.key_len() = 32`. -/
def keyLen : Nat := 32

/-- Ideal model of the 16-byte AEAD tag produced by
`seal_in_place_append_tag`: a commitment to algorithm, key, nonce and
plaintext, padded to 16 bytes. -/
def aeadTag (a : Algo) (k : List Nat) (n : Nat) (m : List Nat) : List Nat :=
  [(match a with | .chacha20poly1305 => 0 | .aes256gcm => 1),
   beVal257 k, n, beVal257 m] ++ List.replicate 12 0

/-- Ideal model of `seal_in_place_append_tag`: ciphertext body followed by
the 16-byte tag. -/
def aeadSeal (a : Algo) (k : List Nat) (n : Nat) (m : List Nat) : List Nat :=
  m ++ aeadTag a k n m

/-- Ideal model of `open_in_place`: strip the trailing 16 tag bytes, verify
the tag, and return the plaintext; any mismatch is an authentication
failure (`none`). -/
def aeadOpen (a : Algo) (k : List Nat) (n : Nat) (c : List Nat) : Option (List Nat) :=
  if c.length < 16 then none
  else
    if c.drop (c.length - 16) = aeadTag a k n (c.take (c.length - 16)) then
      some (c.take (c.length - 16))
    else none

/-- The chunk length chosen by one iteration of the passphrase length-fit
loops in src/crypto.rs lines 46-52 and src/tripwirs.rs lines 71-77. -/
def fitChunk (origLen sLen : Nat) : Nat :=
  if sLen + origLen < keyLen then origLen else keyLen - sLen

/-- The length-fit loop of `get_compatible_passphrase` (src/crypto.rs lines
45-55): while the buffer is not 32 bytes, append a prefix of the buffer
(`extend_from_within`). The Rust loop is unbounded; the fuel argument is an
artifact of the embedding, and 32 iterations are proved sufficient whenever
the passphrase is nonempty. For the empty passphrase each iteration appends
an empty chunk and the Rust loop never exits. -/
def fitLoop : Nat → List Nat → List Nat → List Nat
  | 0, _, s => s
  | fuel + 1, orig, s =>
    if s.length = keyLen then s
    else fitLoop fuel orig (s ++ s.take (fitChunk orig.length s.length))

/-- `get_compatible_passphrase` from src/crypto.rs lines 40-61: length-fit
the passphrase bytes to the 32-byte key length. -/
def get_compatible_passphrase (p : List Nat) : List Nat :=
  if p.length < keyLen then fitLoop keyLen p p else p.take keyLen

/-- The length-fit loop of `get_aes_256_compatible_passphrase`
(src/tripwirs.rs lines 69-79): identical shape, but each chunk is taken
from the original passphrase (`push_str(&passphrase[0..nl])`). -/
def fitLoop2 : Nat → List Nat → List Nat → List Nat
  | 0, _, s => s
  | fuel + 1, orig, s =>
    if s.length = keyLen then s
    else fitLoop2 fuel orig (s ++ orig.take (fitChunk orig.length s.length))

/-- `get_aes_256_compatible_passphrase` from src/tripwirs.rs lines 66-85. -/
def get_aes_256_compatible_passphrase (p : List Nat) : List Nat :=
  if p.length < keyLen then fitLoop2 keyLen p p else p.take keyLen

/-- The nonce-counter step of `FixedNonceSequence::advance` in src/crypto.rs
lines 21-37: increment, wrapping back to 1 once the counter leaves the
96-bit range. -/
def advance (c : Nat) : Nat :=
  if c + 1 > 2 ^ 96 - 1 then 1 else c + 1

/-- One step of the `FixedNonceSequence` in src/tripwirs.rs lines 47-63: a
u64 low word and u32 high word, the low word incremented with carry. -/
def nonceSeqStep (p : Nat × Nat) : Nat × Nat :=
  ((p.1 + 1) % 2 ^ 64,
   if (p.1 + 1) % 2 ^ 64 = 0 then (p.2 + 1) % 2 ^ 32 else p.2)

/-- The 96-bit nonce value encoded by the tripwirs.rs sequence state
(low u64 little-endian, then u32). -/
def nonceVal (p : Nat × Nat) : Nat := p.1 + 2 ^ 64 * p.2

/-- `CryptoError` from src/crypto.rs lines 63-73 (payloads elided). -/
inductive CryptoError
  | wrongPassphrase
  | couldNotCreateKey
  | couldNotEncrypt
  | encryptedDataTooShort
  | cannotGetNonceFromExistingFile
  | encodeError
  | decodeError
  | ioError
deriving DecidableEq

/-- The byte-file system the envelope operates on: a map from path strings
to file contents. -/
def Fs : Type := String → Option (List Nat)

/-- Full overwrite of one path, the model of `File::create` + `write_all`. -/
def fsInsert (fs : Fs) (p : String) (d : List Nat) : Fs :=
  fun q => if q = p then some d else fs q

/-- `get_next_nonce_from_file` from src/crypto.rs lines 93-133: 0 for a
fresh path; otherwise recover the 16-byte big-endian suffix, authenticate
the remaining bytes (the `OpeningKey` advances the counter once before
opening), and return the advanced counter plus one. -/
def get_next_nonce_from_file (pass : List Nat) (fs : Fs) (path : String) :
    Except CryptoError Nat :=
  match fs path with
  | none => .ok 0
  | some data =>
    if data.length < 16 then .error .cannotGetNonceFromExistingFile
    else if (get_compatible_passphrase pass).length = keyLen then
      match aeadOpen .chacha20poly1305 (get_compatible_passphrase pass)
          (advance (parseBe (data.drop (data.length - 16))))
          (data.take (data.length - 16)) with
      | some _ => .ok (advance (parseBe (data.drop (data.length - 16))) + 1)
      | none => .error .cannotGetNonceFromExistingFile
    else .error .couldNotCreateKey

/-- `save_encrypted` from src/crypto.rs lines 135-163. Records are
identified with their bincode encodings (`obj : List Nat`). The sealing key
advances the counter once, so the frame is sealed with `advance n0` while
the 16-byte big-endian suffix records `first_nonce = n0`. On any error the
file system is returned unchanged (the target is only created after
`get_next_nonce_from_file` has succeeded). -/
def save_encrypted (fs : Fs) (outfile : String) (obj : List Nat) (pass : List Nat) :
    Except CryptoError Unit × Fs :=
  if (get_compatible_passphrase pass).length = keyLen then
    match get_next_nonce_from_file pass fs outfile with
    | .error e => (.error e, fs)
    | .ok n0 =>
      (.ok (), fsInsert fs outfile
        (aeadSeal .chacha20poly1305 (get_compatible_passphrase pass)
          (advance n0) obj ++ beBytesN 16 n0))
  else (.error .couldNotCreateKey, fs)

/-- `read_decrypted` from src/crypto.rs lines 165-197: read the file, strip
the 16-byte suffix as the stored counter, open with the advanced counter,
and decode. -/
def read_decrypted (fs : Fs) (infile : String) (pass : List Nat) :
    Except CryptoError (List Nat) :=
  match fs infile with
  | none => .error .ioError
  | some data =>
    if data.length < 16 then .error .encryptedDataTooShort
    else if (get_compatible_passphrase pass).length = keyLen then
      match aeadOpen .chacha20poly1305 (get_compatible_passphrase pass)
          (advance (parseBe (data.drop (data.length - 16))))
          (data.take (data.length - 16)) with
      | some m => .ok m
      | none => .error .wrongPassphrase
    else .error .couldNotCreateKey

/-- The private `save_encrypted` of src/tripwirs.rs lines 87-108, used by
`gen_db`: AES-256-GCM under a `FixedNonceSequence` freshly constructed at
`(0, 0)` for every call — so the single frame is always sealed with nonce
1 — and the file holds the sealed bytes alone, with no nonce suffix. The
Rust code panics (`expect`) on key failure; the panic is modelled as an
error result. -/
def tripwirs_save_encrypted (fs : Fs) (outfile : String) (obj : List Nat)
    (pass : List Nat) : Except CryptoError Unit × Fs :=
  if (get_aes_256_compatible_passphrase pass).length = keyLen then
    (.ok (), fsInsert fs outfile
      (aeadSeal .aes256gcm (get_aes_256_compatible_passphrase pass)
        (nonceVal (nonceSeqStep (0, 0))) obj))
  else (.error .couldNotCreateKey, fs)

/-- The private `read_decrypted` of src/tripwirs.rs lines 110-130, used by
`compare_db`: open the whole file (no suffix is stripped) with a fresh
sequence, i.e. with nonce 1. Panics are modelled as error results. -/
def tripwirs_read_decrypted (fs : Fs) (infile : String) (pass : List Nat) :
    Except CryptoError (List Nat) :=
  if (get_aes_256_compatible_passphrase pass).length = keyLen then
    match fs infile with
    | none => .error .ioError
    | some data =>
      match aeadOpen .aes256gcm (get_aes_256_compatible_passphrase pass)
          (nonceVal (nonceSeqStep (0, 0))) data with
      | some m => .ok m
      | none => .error .wrongPassphrase
  else .error .couldNotCreateKey

/-- Filesystem nodes as seen by the tree walker. `badFile` is a regular
file whose open/read fails with an I/O error (e.g. permission denied). -/
inductive FNode
  | file (content : List Nat)
  | badFile
  | dir (children : List String)
  | symlink (target : String)
deriving DecidableEq

/-- The walked file system: a map from path strings to nodes. Directory
children are stored as full path strings (`e.path()`). -/
def WFs : Type := String → Option FNode

/-- The kernel's symlink-chain limit (ELOOP after 40 links); resolution
fuel for the embedding of `Path::is_file` / `read_dir` / `File::open`,
which all dereference symbolic links. -/
def symlinkFuel : Nat := 40

/-- Resolve a path, following symbolic links (as the Rust `stat`-based
calls do). `none` models a dangling target, a missing path, or ELOOP. -/
def resolveNode : Nat → WFs → String → Option FNode
  | 0, _, _ => none
  | fuel + 1, fs, p =>
    match fs p with
    | some (.symlink t) => resolveNode fuel fs t
    | other => other

/-- `path.is_file()` (src/tripwirs.rs lines 220 and 278): true for a
regular file, dereferencing symlinks; an unreadable regular file still
stats as a file. -/
def isFile (fs : WFs) (p : String) : Bool :=
  match resolveNode symlinkFuel fs p with
  | some (.file _) => true
  | some .badFile => true
  | _ => false

/-- `File::open` + streaming read of the whole content; errors on an
unreadable file, a missing path, or a non-file node. -/
def readContent (fs : WFs) (p : String) : Except Unit (List Nat) :=
  match resolveNode symlinkFuel fs p with
  | some (.file c) => .ok c
  | _ => .error ()

/-- `path.read_dir()` (src/tripwirs.rs lines 225 and 297): enumerate a
directory, dereferencing symlinks; errors otherwise. -/
def readDir (fs : WFs) (p : String) : Except Unit (List String) :=
  match resolveNode symlinkFuel fs p with
  | some (.dir ch) => .ok ch
  | _ => .error ()

/-- Stand-in for the external XXH3-64 digest of an absorbed byte stream.
The code builds the hasher with `Xxh3::new()` — no seed and no secret — so
the digest is a function of the absorbed bytes alone. -/
def xxh3Digest (l : List Nat) : Nat :=
  l.foldl (fun a b => (a * 1099511628211 + b + 1) % 2 ^ 64) 0

/-- Split a byte list into the successive at-most-1024-byte buffers read by
the hashing loop of `get_filehash` (src/tripwirs.rs lines 181-188). The
fuel is instantiated with the list length, which suffices. -/
def chunksOf : Nat → List Nat → List (List Nat)
  | 0, _ => []
  | _ + 1, [] => []
  | fuel + 1, x :: xs => (x :: xs).take 1024 :: chunksOf fuel ((x :: xs).drop 1024)

/-- The hash computed by the streaming loop of `get_filehash`: absorb the
content buffer by buffer, then finish. -/
def hashStream (c : List Nat) : Nat :=
  xxh3Digest ((chunksOf c.length c).foldl (fun a b => a ++ b) [])

/-- `get_filehash` from src/tripwirs.rs lines 176-193: open the file,
stream its bytes in 1 KiB buffers through an unkeyed XXH3-64 hasher, and
return the 64-bit digest. Note the signature: no policy and no secret. -/
def get_filehash (fs : WFs) (p : String) : Except Unit Nat :=
  match readContent fs p with
  | .ok c => .ok (hashStream c)
  | .error _ => .error ()

/-- `NodeType` from src/tripwirs.rs lines 195-199: a file with its 64-bit
hash, or an (empty) directory. There is no symlink variant. -/
inductive NodeType
  | F (h : Nat)
  | D
deriving DecidableEq

/-- The integrity database: path keys mapped to node kinds (a `HashMap`
in the source, modelled as an association list with unique keys). -/
abbrev Db : Type := List (String × NodeType)

/-- `HashMap::insert`: replace any existing binding of the key. -/
def dbInsert (db : Db) (k : String) (v : NodeType) : Db :=
  db.filter (fun kv => kv.1 ≠ k) ++ [(k, v)]

/-- `HashMap::remove`: the removed binding, if any, and the rest. -/
def dbRemove (db : Db) (k : String) : Option NodeType × Db :=
  ((db.find? (fun kv => kv.1 = k)).map (fun kv => kv.2),
   db.filter (fun kv => kv.1 ≠ k))

/-- `Config` from src/tripwirs.rs lines 17-30, the record consumed by
`scan_path` and `compare_path`: scan roots and ignored paths. It has no
secret field. -/
structure TripwirsConfig where
  scans : List String
  ignores : List String
deriving DecidableEq

/-- The body of `scan_path` (src/tripwirs.rs lines 202-245): a LIFO stack
seeded with the root. Per entry: an ignored path is skipped; a regular
file (symlinks dereferenced) is hashed — a hashing error aborts the whole
scan via `?` — and inserted as `F(hash)`; otherwise the entry is
enumerated as a directory, enumeration failure skips it silently, its
children are pushed, and a childless directory is inserted as `D`. The
loop fuel is an embedding artifact (`none` = fuel exhausted); symlink
cycles can indeed make the Rust loop run unboundedly. -/
def scanLoop : Nat → TripwirsConfig → WFs → List String → Db →
    Option (Except Unit Db)
  | 0, _, _, _, _ => none
  | fuel + 1, cfg, fs, stack, db =>
    match stack with
    | [] => some (.ok db)
    | e :: rest =>
      if cfg.ignores.contains e then scanLoop fuel cfg fs rest db
      else if isFile fs e then
        match get_filehash fs e with
        | .ok h => scanLoop fuel cfg fs rest (dbInsert db e (.F h))
        | .error _ => some (.error ())
      else
        match readDir fs e with
        | .error _ => scanLoop fuel cfg fs rest db
        | .ok children =>
          if children.length = 0 then
            scanLoop fuel cfg fs (children.foldl (fun st c => c :: st) rest)
              (dbInsert db e .D)
          else
            scanLoop fuel cfg fs (children.foldl (fun st c => c :: st) rest) db

/-- `scan_path` seeded with one root. -/
def scan_path (fuel : Nat) (cfg : TripwirsConfig) (fs : WFs) (root : String)
    (db : Db) : Option (Except Unit Db) :=
  scanLoop fuel cfg fs [root] db

/-- The root loop of `gen_db` (src/tripwirs.rs lines 250-252): scan every
root in order into one database; any scan error aborts the command. -/
def genDbRoots (fuel : Nat) (cfg : TripwirsConfig) (fs : WFs) :
    List String → Db → Option (Except Unit Db)
  | [], db => some (.ok db)
  | r :: rs, db =>
    match scan_path fuel cfg fs r db with
    | none => none
    | some (.error e) => some (.error e)
    | some (.ok db2) => genDbRoots fuel cfg fs rs db2

/-- `gen_db` up to (but not including) the envelope save: the database it
would seal, or the error that makes the command fail. -/
def gen_db (fuel : Nat) (cfg : TripwirsConfig) (fs : WFs) :
    Option (Except Unit Db) :=
  genDbRoots fuel cfg fs cfg.scans []

/-- The diagnostics printed by `compare_path` and `compare_db`
(src/tripwirs.rs lines 259-336), one constructor per `println!` form. -/
inductive Report
  | skipping (p : String)
  | hashChanged (p : String) (old new : Nat)
  | fileWasPreviouslyDirectory (p : String)
  | newFile (p : String)
  | directoryIsNowFile (p : String)
  | newDirectory (p : String)
  | fileRemoved (p : String) (h : Nat)
  | directoryRemoved (p : String)
deriving DecidableEq

/-- The body of `compare_path` (src/tripwirs.rs lines 259-320): the same
walk as `scan_path`, popping each visited key from the database and
reporting differences; a hashing error again aborts via `?`. -/
def compareLoop : Nat → TripwirsConfig → WFs → List String → Db → List Report →
    Option (Except Unit (Db × List Report))
  | 0, _, _, _, _, _ => none
  | fuel + 1, cfg, fs, stack, db, reps =>
    match stack with
    | [] => some (.ok (db, reps))
    | e :: rest =>
      if cfg.ignores.contains e then
        compareLoop fuel cfg fs rest db (reps ++ [.skipping e])
      else if isFile fs e then
        match dbRemove db e with
        | (some (.F old), db2) =>
          match get_filehash fs e with
          | .ok new =>
            compareLoop fuel cfg fs rest db2
              (if old ≠ new then reps ++ [.hashChanged e old new] else reps)
          | .error _ => some (.error ())
        | (some .D, db2) =>
          compareLoop fuel cfg fs rest db2 (reps ++ [.fileWasPreviouslyDirectory e])
        | (none, db2) => compareLoop fuel cfg fs rest db2 (reps ++ [.newFile e])
      else
        match readDir fs e with
        | .error _ => compareLoop fuel cfg fs rest db reps
        | .ok children =>
          if children.length = 0 then
            match dbRemove db e with
            | (some (.F _), db2) =>
              compareLoop fuel cfg fs (children.foldl (fun st c => c :: st) rest)
                db2 (reps ++ [.directoryIsNowFile e])
            | (some .D, db2) =>
              compareLoop fuel cfg fs (children.foldl (fun st c => c :: st) rest)
                db2 reps
            | (none, db2) =>
              compareLoop fuel cfg fs (children.foldl (fun st c => c :: st) rest)
                db2 (reps ++ [.newDirectory e])
          else
            compareLoop fuel cfg fs (children.foldl (fun st c => c :: st) rest)
              db reps

/-- `compare_path` seeded with one root. -/
def compare_path (fuel : Nat) (cfg : TripwirsConfig) (fs : WFs) (root : String)
    (db : Db) (reps : List Report) : Option (Except Unit (Db × List Report)) :=
  compareLoop fuel cfg fs [root] db reps

/-- The root loop of `compare_db` (src/tripwirs.rs lines 324-326). -/
def compareRoots (fuel : Nat) (cfg : TripwirsConfig) (fs : WFs) :
    List String → Db → List Report → Option (Except Unit (Db × List Report))
  | [], db, reps => some (.ok (db, reps))
  | r :: rs, db, reps =>
    match compare_path fuel cfg fs r db reps with
    | none => none
    | some (.error e) => some (.error e)
    | some (.ok (db2, reps2)) => compareRoots fuel cfg fs rs db2 reps2

/-- The residue phase of `compare_db` (src/tripwirs.rs lines 328-333):
every key still in the database yields one report, `FILE WITH HASH h IS
REMOVED` for `F h` and `DIRECTORY IS REMOED` (sic) for `D`. -/
def residueReports (db : Db) : List Report :=
  db.map (fun kv =>
    match kv.2 with
    | .F h => Report.fileRemoved kv.1 h
    | .D => Report.directoryRemoved kv.1)

/-- `compare_db` from src/tripwirs.rs lines 321-336, starting from the
already-decrypted database: walk all roots, then report the residue. -/
def compare_db (fuel : Nat) (cfg : TripwirsConfig) (fs : WFs) (db0 : Db) :
    Option (Except Unit (List Report)) :=
  match compareRoots fuel cfg fs cfg.scans db0 [] with
  | none => none
  | some (.error e) => some (.error e)
  | some (.ok (db2, reps)) => some (.ok (reps ++ residueReports db2))

/-- `Config` from src/config.rs lines 13-18: the policy record sealed into
the encrypted policy file, with the 192-byte hashing secret filled by
`gen_new_secret` (src/config.rs lines 33-37). -/
structure Config where
  secret : List Nat
  scans : List (List Char)
  ignores : List (List Char)
deriving DecidableEq

/-- ASCII model of Rust `char::is_whitespace` (the claims involve only
ASCII bytes). -/
def isWs (c : Char) : Bool :=
  c = ' ' || c = '\t' || c = '\n' || c = '\r'

/-- `str::trim_start`. -/
def trimStart (l : List Char) : List Char := l.dropWhile isWs

/-- `str::trim`. -/
def trim (l : List Char) : List Char :=
  ((l.dropWhile isWs).reverse.dropWhile isWs).reverse

/-- `str::trim_end_matches` with pattern newline. -/
def trimEndNewlines (l : List Char) : List Char :=
  (l.reverse.dropWhile (fun c => c = '\n')).reverse

/-- Comment test of src/config.rs line 48: first non-whitespace character
is a hash mark. -/
def isComment (l : List Char) : Bool :=
  match trimStart l with
  | '#' :: _ => true
  | _ => false

/-- Blank test of src/config.rs line 48: the trimmed line is empty. -/
def isBlank (l : List Char) : Bool :=
  trim l = []

/-- `ActionType` from src/config.rs lines 8-11. -/
inductive ActionType
  | scan
  | ignore
deriving DecidableEq

/-- The four line shapes that toggle the parser mode (src/config.rs lines
53-59): the exact header bytes immediately followed by one newline. -/
def headerLines : List (List Char) :=
  ["[SCAN]\n".toList, "[scan]\n".toList, "[IGNORE]\n".toList, "[ignore]\n".toList]

/-- One iteration of the `gen_config` line loop (src/config.rs lines
47-72; src/tripwirs.rs lines 139-164 is the identical parser): skip
comments and blanks; an exact header line (with its newline) toggles the
mode; any other line, minus trailing newlines, joins the active
collection. `ignores` is a set, so insertion deduplicates. -/
def gen_config_step (st : ActionType × Config) (line : List Char) :
    ActionType × Config :=
  if isComment line || isBlank line then st
  else if line = "[SCAN]\n".toList ∨ line = "[scan]\n".toList then
    (.scan, st.2)
  else if line = "[IGNORE]\n".toList ∨ line = "[ignore]\n".toList then
    (.ignore, st.2)
  else
    match st.1 with
    | .scan =>
      (.scan, { st.2 with scans := st.2.scans ++ [trimEndNewlines line] })
    | .ignore =>
      (.ignore, { st.2 with ignores :=
        if st.2.ignores.contains (trimEndNewlines line) then st.2.ignores
        else st.2.ignores ++ [trimEndNewlines line] })

/-- The whole `gen_config` parse over the lines delivered by `read_line`
(each line keeps its trailing newline; a final line at end-of-file without
a newline is delivered bare). The initial mode is `Scan`. -/
def gen_config_lines (secret0 : List Nat) (lines : List (List Char)) : Config :=
  (lines.foldl gen_config_step (.scan, ⟨secret0, [], []⟩)).2

/-- The empty byte file system (no path exists). -/
def emptyFs : Fs := fun _ => none

/-- A file system holding one corrupted envelope at path f: a valid frame
sealed with nonce 1 but a tampered 16-byte suffix recording 5. -/
def corruptFs : Fs := fun q =>
  if q = "f" then
    some (aeadSeal .chacha20poly1305 (get_compatible_passphrase [7]) 1 [5]
      ++ beBytesN 16 5)
  else none

/-- Single regular file serving the hashing claims. -/
def fs6 : WFs := fun p => if p = "/t" then some (.file [10, 20]) else none

/-- Scan configuration whose only root is the file above. -/
def cfg6 : TripwirsConfig := ⟨["/t"], []⟩

/-- A tree with a symlink to a regular file under root r and a symlink to
a directory under root s. -/
def fs7 : WFs := fun p =>
  if p = "/r" then some (.dir ["/r/ln"])
  else if p = "/r/ln" then some (.symlink "/t")
  else if p = "/t" then some (.file [10, 20])
  else if p = "/s" then some (.dir ["/s/ld"])
  else if p = "/s/ld" then some (.symlink "/d")
  else if p = "/d" then some (.dir ["/d/x"])
  else if p = "/d/x" then some (.file [3])
  else none

/-- Configuration ignoring nothing. -/
def cfg7 : TripwirsConfig := ⟨["/r", "/s"], []⟩

/-- A tree with one readable and one unreadable file under the root. -/
def fs8 : WFs := fun p =>
  if p = "/r" then some (.dir ["/r/good", "/r/bad"])
  else if p = "/r/bad" then some .badFile
  else if p = "/r/good" then some (.file [1])
  else none

/-- Configuration scanning the root above. -/
def cfg8 : TripwirsConfig := ⟨["/r"], []⟩

/-- Length of the big-endian byte expansion. -/
theorem beBytesN_length (n x : Nat) : (beBytesN n x).length = n := by
  induction n with
  | zero => simp [beBytesN]
  | succ n ih => simp [beBytesN, ih]

/-- Folding the big-endian digits of x from an accumulator. -/
theorem parseBe_aux (n : Nat) : ∀ (x a : Nat),
    List.foldl (fun a b => a * 256 + b) a (beBytesN n x) = a * 256 ^ n + x % 256 ^ n := by
  induction n with
  | zero => intro x a; simp [beBytesN, Nat.mod_one]
  | succ n ih =>
    intro x a
    have hpow : (256 : Nat) ^ (n + 1) = 256 ^ n * 256 := by ring
    simp only [beBytesN, List.foldl_cons]
    rw [ih, hpow, Nat.mod_mul]
    ring

/-- Parsing the 16-byte big-endian suffix recovers the stored counter. -/
theorem parseBe_beBytesN (n x : Nat) : parseBe (beBytesN n x) = x % 256 ^ n := by
  have h := parseBe_aux n x 0
  simpa [parseBe] using h

/-- Folding the base-257 digits from an accumulator. -/
theorem beVal257_aux (l : List Nat) : ∀ a : Nat,
    List.foldl (fun a b => a * 257 + b) a l = a * 257 ^ l.length + beVal257 l := by
  induction l with
  | nil => intro a; simp [beVal257]
  | cons x xs ih =>
    intro a
    have hx : beVal257 (x :: xs) = x * 257 ^ xs.length + beVal257 xs := by
      have h := ih x
      simp only [beVal257, List.foldl_cons]
      simpa using h
    simp only [List.foldl_cons]
    rw [ih, hx]
    simp [List.length_cons, pow_succ]
    ring

/-- A byte list with digits below 257 has base-257 value below the
corresponding power. -/
theorem beVal257_lt (l : List Nat) (hb : ∀ x ∈ l, x < 257) :
    beVal257 l < 257 ^ l.length := by
  induction l with
  | nil => simp [beVal257]
  | cons x xs ih =>
    have hx : x < 257 := hb x (by simp)
    have hxs : beVal257 xs < 257 ^ xs.length :=
      ih (fun y hy => hb y (by simp [hy]))
    have hsplit : beVal257 (x :: xs) = x * 257 ^ xs.length + beVal257 xs := by
      have h := beVal257_aux xs x
      simp only [beVal257, List.foldl_cons]
      simpa using h
    rw [hsplit, List.length_cons, pow_succ]
    have h1 : x * 257 ^ xs.length + beVal257 xs < (x + 1) * 257 ^ xs.length := by
      have := hxs
      nlinarith [hxs]
    have h2 : (x + 1) * 257 ^ xs.length ≤ 257 * 257 ^ xs.length :=
      Nat.mul_le_mul_right _ (by omega)
    calc x * 257 ^ xs.length + beVal257 xs
        < (x + 1) * 257 ^ xs.length := h1
      _ ≤ 257 * 257 ^ xs.length := h2
      _ = 257 ^ xs.length * 257 := by ring

/-- The base-257 value is injective on byte lists of equal length whose
digits are below 257: this is what makes the ideal tag commit to the key. -/
theorem beVal257_inj (l1 : List Nat) : ∀ (l2 : List Nat),
    l1.length = l2.length → (∀ x ∈ l1, x < 257) → (∀ x ∈ l2, x < 257) →
    beVal257 l1 = beVal257 l2 → l1 = l2 := by
  induction l1 with
  | nil =>
    intro l2 hlen _ _ _
    exact (List.length_eq_zero.mp hlen.symm).symm ▸ rfl
  | cons x xs ih =>
    intro l2 hlen hb1 hb2 hval
    cases l2 with
    | nil => simp at hlen
    | cons y ys =>
      have hlen2 : xs.length = ys.length := by simpa using hlen
      have hx : x < 257 := hb1 x (by simp)
      have hy : y < 257 := hb2 y (by simp)
      have hxs : beVal257 xs < 257 ^ xs.length :=
        beVal257_lt xs (fun z hz => hb1 z (by simp [hz]))
      have hys : beVal257 ys < 257 ^ xs.length := by
        rw [hlen2]
        exact beVal257_lt ys (fun z hz => hb2 z (by simp [hz]))
      have hsx : beVal257 (x :: xs) = x * 257 ^ xs.length + beVal257 xs := by
        have h := beVal257_aux xs x
        simp only [beVal257, List.foldl_cons]
        simpa using h
      have hsy : beVal257 (y :: ys) = y * 257 ^ xs.length + beVal257 ys := by
        have h := beVal257_aux ys y
        simp only [beVal257, List.foldl_cons]
        rw [hlen2]
        simpa using h
      rw [hsx, hsy] at hval
      have hpow : 0 < (257 : Nat) ^ xs.length := Nat.pos_pow_of_pos _ (by omega)
      have hxy : x = y := by
        have d1 : (x * 257 ^ xs.length + beVal257 xs) / 257 ^ xs.length = x := by
          rw [Nat.mul_comm x, Nat.mul_add_div hpow, Nat.div_eq_of_lt hxs]
          omega
        have d2 : (y * 257 ^ xs.length + beVal257 ys) / 257 ^ xs.length = y := by
          rw [Nat.mul_comm y, Nat.mul_add_div hpow, Nat.div_eq_of_lt hys]
          omega
        rw [← d1, ← d2, hval]
      subst hxy
      have hrest : beVal257 xs = beVal257 ys := by omega
      have := ih ys hlen2 (fun z hz => hb1 z (by simp [hz]))
        (fun z hz => hb2 z (by simp [hz])) hrest
      rw [this]

/-- The ideal tag is 16 bytes, matching the 128-bit Poly1305/GCM tags. -/
theorem aeadTag_length (a : Algo) (k : List Nat) (n : Nat) (m : List Nat) :
    (aeadTag a k n m).length = 16 := by
  cases a <;> simp [aeadTag]

/-- Sealing appends exactly the 16 tag bytes. -/
theorem aeadSeal_length (a : Algo) (k : List Nat) (n : Nat) (m : List Nat) :
    (aeadSeal a k n m).length = m.length + 16 := by
  simp [aeadSeal, aeadTag_length]

/-- Opening with the sealing algorithm, key and nonce recovers the
plaintext. -/
theorem aeadOpen_aeadSeal (a : Algo) (k : List Nat) (n : Nat) (m : List Nat) :
    aeadOpen a k n (aeadSeal a k n m) = some m := by
  have hlen : (aeadSeal a k n m).length = m.length + 16 := aeadSeal_length a k n m
  have hsub : (aeadSeal a k n m).length - 16 = m.length := by omega
  have htake : (aeadSeal a k n m).take m.length = m := by
    simpa [aeadSeal] using List.take_left m (aeadTag a k n m)
  have hdrop : (aeadSeal a k n m).drop m.length = aeadTag a k n m := by
    simpa [aeadSeal] using List.drop_left m (aeadTag a k n m)
  unfold aeadOpen
  rw [hlen] at hsub ⊢
  rw [if_neg (by omega), hsub, htake, hdrop, if_pos rfl]

/-- Opening a sealed frame with a different key of the same length (both
within byte range) is an authentication failure. -/
theorem aeadOpen_ne_key (a : Algo) (k k2 : List Nat) (n n2 : Nat) (m : List Nat)
    (hlen : k.length = k2.length) (hk : ∀ x ∈ k, x < 257)
    (hk2 : ∀ x ∈ k2, x < 257) (hne : k2 ≠ k) :
    aeadOpen a k2 n2 (aeadSeal a k n m) = none := by
  have hslen : (aeadSeal a k n m).length = m.length + 16 := aeadSeal_length a k n m
  have hsub : (aeadSeal a k n m).length - 16 = m.length := by omega
  have htake : (aeadSeal a k n m).take m.length = m := by
    simpa [aeadSeal] using List.take_left m (aeadTag a k n m)
  have hdrop : (aeadSeal a k n m).drop m.length = aeadTag a k n m := by
    simpa [aeadSeal] using List.drop_left m (aeadTag a k n m)
  unfold aeadOpen
  rw [hslen] at hsub ⊢
  rw [if_neg (by omega), hsub, htake, hdrop]
  rw [if_neg]
  intro hcontra
  have hval : beVal257 k = beVal257 k2 := by
    have h := hcontra
    cases a <;> simp [aeadTag] at h <;> exact h.1
  exact hne (beVal257_inj k k2 hlen hk hk2 hval).symm

/-- The chunk appended by one length-fit iteration never exceeds the
original passphrase length. -/
theorem fitChunk_le (o s : Nat) (h : s < keyLen) : fitChunk o s ≤ o := by
  simp only [fitChunk, keyLen] at *
  split <;> omega

/-- For a nonempty passphrase the chunk is nonempty: the loop makes
progress. -/
theorem fitChunk_pos (o s : Nat) (ho : 0 < o) (h : s < keyLen) :
    0 < fitChunk o s := by
  simp only [fitChunk, keyLen] at *
  split <;> omega

/-- One iteration never grows the buffer past the key length. -/
theorem fitChunk_add_le (o s : Nat) (h : s < keyLen) :
    s + fitChunk o s ≤ keyLen := by
  simp only [fitChunk, keyLen] at *
  split <;> omega

/-- With a nonempty original passphrase and enough fuel, the crypto.rs
length-fit loop ends at exactly the 32-byte key length. -/
theorem fitLoop_length (fuel : Nat) : ∀ (orig s : List Nat), orig ≠ [] →
    orig.length ≤ s.length → s.length ≤ keyLen → keyLen ≤ s.length + fuel →
    (fitLoop fuel orig s).length = keyLen := by
  induction fuel with
  | zero =>
    intro orig s _ _ h3 h4
    simp only [fitLoop]
    omega
  | succ fuel ih =>
    intro orig s h1 h2 h3 h4
    simp only [fitLoop]
    by_cases hl : s.length = keyLen
    · rw [if_pos hl]; exact hl
    · rw [if_neg hl]
      have hslt : s.length < keyLen := by omega
      have horig : 0 < orig.length := List.length_pos.mpr h1
      have hcle : fitChunk orig.length s.length ≤ orig.length :=
        fitChunk_le _ _ hslt
      have hcpos : 0 < fitChunk orig.length s.length :=
        fitChunk_pos _ _ horig hslt
      have hlen2 : (s ++ s.take (fitChunk orig.length s.length)).length
          = s.length + fitChunk orig.length s.length := by
        rw [List.length_append, List.length_take,
          Nat.min_eq_left (le_trans hcle h2)]
      apply ih
      · exact h1
      · rw [hlen2]; omega
      · rw [hlen2]; exact fitChunk_add_le _ _ hslt
      · rw [hlen2]; omega

/-- Same for the tripwirs.rs variant, whose chunks come from the original
passphrase. -/
theorem fitLoop2_length (fuel : Nat) : ∀ (orig s : List Nat), orig ≠ [] →
    s.length ≤ keyLen → keyLen ≤ s.length + fuel →
    (fitLoop2 fuel orig s).length = keyLen := by
  induction fuel with
  | zero =>
    intro orig s _ h3 h4
    simp only [fitLoop2]
    omega
  | succ fuel ih =>
    intro orig s h1 h3 h4
    simp only [fitLoop2]
    by_cases hl : s.length = keyLen
    · rw [if_pos hl]; exact hl
    · rw [if_neg hl]
      have hslt : s.length < keyLen := by omega
      have horig : 0 < orig.length := List.length_pos.mpr h1
      have hcle : fitChunk orig.length s.length ≤ orig.length :=
        fitChunk_le _ _ hslt
      have hcpos : 0 < fitChunk orig.length s.length :=
        fitChunk_pos _ _ horig hslt
      have hlen2 : (s ++ orig.take (fitChunk orig.length s.length)).length
          = s.length + fitChunk orig.length s.length := by
        rw [List.length_append, List.length_take, Nat.min_eq_left hcle]
      apply ih
      · exact h1
      · rw [hlen2]; exact fitChunk_add_le _ _ hslt
      · rw [hlen2]; omega

/-- The crypto.rs length-fit of a nonempty passphrase has exactly the key
length. -/
theorem get_compatible_passphrase_length (p : List Nat) (h : p ≠ []) :
    (get_compatible_passphrase p).length = keyLen := by
  unfold get_compatible_passphrase
  split
  · exact fitLoop_length keyLen p p h le_rfl (by omega) (by omega)
  · rw [List.length_take]; omega

/-- The tripwirs.rs length-fit of a nonempty passphrase has exactly the key
length. -/
theorem get_aes_256_compatible_passphrase_length (p : List Nat) (h : p ≠ []) :
    (get_aes_256_compatible_passphrase p).length = keyLen := by
  unfold get_aes_256_compatible_passphrase
  split
  · exact fitLoop2_length keyLen p p h (by omega) (by omega)
  · rw [List.length_take]; omega

/-- Every byte of the loop result is a byte of the starting buffer. -/
theorem fitLoop_mem (fuel : Nat) : ∀ (orig s : List Nat) (x : Nat),
    x ∈ fitLoop fuel orig s → x ∈ s := by
  induction fuel with
  | zero => intro orig s x hx; simpa [fitLoop] using hx
  | succ fuel ih =>
    intro orig s x hx
    simp only [fitLoop] at hx
    by_cases hl : s.length = keyLen
    · rw [if_pos hl] at hx; exact hx
    · rw [if_neg hl] at hx
      have := ih _ _ _ hx
      rcases List.mem_append.mp this with h | h
      · exact h
      · exact List.take_subset _ _ h

/-- Every byte of the length-fit key is a byte of the passphrase. -/
theorem get_compatible_passphrase_mem (p : List Nat) (x : Nat)
    (hx : x ∈ get_compatible_passphrase p) : x ∈ p := by
  unfold get_compatible_passphrase at hx
  split at hx
  · exact fitLoop_mem keyLen p p x hx
  · exact List.take_subset _ _ hx

/-- Concatenating the 1 KiB buffers reproduces the whole content. -/
theorem chunksOf_foldl (fuel : Nat) : ∀ (l a : List Nat), l.length ≤ fuel →
    (chunksOf fuel l).foldl (fun x y => x ++ y) a = a ++ l := by
  induction fuel with
  | zero =>
    intro l a h
    have : l = [] := List.length_eq_zero.mp (by omega)
    subst this
    simp [chunksOf]
  | succ fuel ih =>
    intro l a h
    cases l with
    | nil => simp [chunksOf]
    | cons x xs =>
      simp only [chunksOf, List.foldl_cons]
      rw [ih]
      · rw [List.append_assoc, List.take_append_drop]
      · rw [List.length_drop]
        simp only [List.length_cons] at h ⊢
        omega

/-- Buffered hashing equals hashing the whole content: the 1 KiB streaming
of `get_filehash` computes the digest of the file's byte stream. -/
theorem hashStream_eq (c : List Nat) : hashStream c = xxh3Digest c := by
  unfold hashStream
  rw [chunksOf_foldl c.length c [] le_rfl]
  simp

/-- The crypto.rs counter step stays within the 96-bit nonce range. -/
theorem advance_le (c : Nat) : advance c ≤ 2 ^ 96 - 1 := by
  have h2 : (2 : Nat) ≤ 2 ^ 96 := Nat.le_self_pow (by omega) 2
  unfold advance
  split <;> omega

/-- The value returned by `get_next_nonce_from_file` never exceeds 2^96,
hence fits the 16-byte big-endian suffix exactly. -/
theorem get_next_nonce_le (pass : List Nat) (fs : Fs) (path : String) (n : Nat)
    (h : get_next_nonce_from_file pass fs path = .ok n) : n ≤ 2 ^ 96 := by
  have h2 : (2 : Nat) ≤ 2 ^ 96 := Nat.le_self_pow (by omega) 2
  unfold get_next_nonce_from_file at h
  split at h
  · simp at h; omega
  · rename_i data heq
    split at h
    · simp at h
    · split at h
      · split at h
        · rename_i hopen
          have hadv := advance_le (parseBe (data.drop (data.length - 16)))
          simp at h
          omega
        · simp at h
      · simp at h

/-- Successful saves via the crypto.rs envelope produce exactly `sealed
frame (nonce advance n0) ++ 16-byte big-endian n0`, with `n0` the value
recovered by `get_next_nonce_from_file`. -/
theorem save_encrypted_layout (fs : Fs) (path : String) (obj pass : List Nat)
    (fs2 : Fs) (h : save_encrypted fs path obj pass = (.ok (), fs2)) :
    ∃ n0, get_next_nonce_from_file pass fs path = .ok n0 ∧
      (get_compatible_passphrase pass).length = keyLen ∧
      fs2 = fsInsert fs path
        (aeadSeal .chacha20poly1305 (get_compatible_passphrase pass)
          (advance n0) obj ++ beBytesN 16 n0) ∧
      fs2 path = some
        (aeadSeal .chacha20poly1305 (get_compatible_passphrase pass)
          (advance n0) obj ++ beBytesN 16 n0) := by
  unfold save_encrypted at h
  split at h
  · rename_i hkey
    split at h
    · exact absurd (congrArg Prod.fst h) (by simp)
    · rename_i n0 heq
      have hfs2 : fs2 = fsInsert fs path
          (aeadSeal .chacha20poly1305 (get_compatible_passphrase pass)
            (advance n0) obj ++ beBytesN 16 n0) :=
        (congrArg Prod.snd h).symm
      refine ⟨n0, heq, hkey, hfs2, ?_⟩
      rw [hfs2]
      simp [fsInsert]
  · exact absurd (congrArg Prod.fst h) (by simp)

/-- Reading a freshly saved envelope parses the suffix back to the stored
counter and hands the sealed frame to the AEAD opener with the advanced
counter — i.e. exactly the nonce the frame was sealed with. -/
theorem read_decrypted_on_saved (fs : Fs) (path : String) (obj p : List Nat)
    (fs2 : Fs) (hsave : save_encrypted fs path obj p = (.ok (), fs2))
    (p2 : List Nat) (hk2 : (get_compatible_passphrase p2).length = keyLen) :
    ∃ n0, get_next_nonce_from_file p fs path = .ok n0 ∧
      read_decrypted fs2 path p2 =
        match aeadOpen .chacha20poly1305 (get_compatible_passphrase p2)
            (advance n0)
            (aeadSeal .chacha20poly1305 (get_compatible_passphrase p)
              (advance n0) obj) with
        | some m => .ok m
        | none => .error .wrongPassphrase := by
  rcases save_encrypted_layout fs path obj p fs2 hsave with ⟨n0, hn, hkey, hfs2, hlook⟩
  refine ⟨n0, hn, ?_⟩
  have hdl : (aeadSeal .chacha20poly1305 (get_compatible_passphrase p)
      (advance n0) obj ++ beBytesN 16 n0).length = obj.length + 32 := by
    rw [List.length_append, aeadSeal_length, beBytesN_length]
  have hsl : (aeadSeal .chacha20poly1305 (get_compatible_passphrase p)
      (advance n0) obj).length = obj.length + 16 := aeadSeal_length _ _ _ _
  have hsub : (aeadSeal .chacha20poly1305 (get_compatible_passphrase p)
        (advance n0) obj ++ beBytesN 16 n0).length - 16
      = (aeadSeal .chacha20poly1305 (get_compatible_passphrase p)
        (advance n0) obj).length := by omega
  have hn0 : n0 ≤ 2 ^ 96 := get_next_nonce_le p fs path n0 hn
  have hparse : parseBe ((aeadSeal .chacha20poly1305 (get_compatible_passphrase p)
        (advance n0) obj ++ beBytesN 16 n0).drop
        ((aeadSeal .chacha20poly1305 (get_compatible_passphrase p)
          (advance n0) obj ++ beBytesN 16 n0).length - 16)) = n0 := by
    rw [hsub, List.drop_left, parseBe_beBytesN]
    have hlt : n0 < 256 ^ 16 := by
      have : (256 : Nat) ^ 16 = 2 ^ 128 := by norm_num
      have h96 : (2 : Nat) ^ 96 < 2 ^ 128 := by norm_num
      omega
    exact Nat.mod_eq_of_lt hlt
  have htake : (aeadSeal .chacha20poly1305 (get_compatible_passphrase p)
        (advance n0) obj ++ beBytesN 16 n0).take
        ((aeadSeal .chacha20poly1305 (get_compatible_passphrase p)
          (advance n0) obj ++ beBytesN 16 n0).length - 16)
      = aeadSeal .chacha20poly1305 (get_compatible_passphrase p) (advance n0) obj := by
    rw [hsub, List.take_left]
  simp only [read_decrypted, hlook]
  rw [if_neg (by omega), if_pos hk2, hparse, htake]

/-- C1: saving a record encrypted and re-opening with the same passphrase
returns the record; opening with any passphrase whose length-fit key
differs fails with the wrong-passphrase error. (The passphrases are
nonempty byte strings: on the empty passphrase the length-fit loop of the
code never terminates, so there is no saved file to open.) -/
theorem c1_save_read_roundtrip (fs : Fs) (path : String) (obj p p2 : List Nat)
    (fs2 : Fs) (hp : p ≠ []) (hpb : ∀ x ∈ p, x < 256)
    (hsave : save_encrypted fs path obj p = (.ok (), fs2)) :
    read_decrypted fs2 path p = .ok obj ∧
    (p2 ≠ [] → (∀ x ∈ p2, x < 256) →
      get_compatible_passphrase p2 ≠ get_compatible_passphrase p →
      read_decrypted fs2 path p2 = .error .wrongPassphrase) := by
  have hk : (get_compatible_passphrase p).length = keyLen :=
    get_compatible_passphrase_length p hp
  constructor
  · rcases read_decrypted_on_saved fs path obj p fs2 hsave p hk with ⟨n0, hn, hread⟩
    rw [hread, aeadOpen_aeadSeal]
  · intro hp2 hp2b hne
    have hk2 : (get_compatible_passphrase p2).length = keyLen :=
      get_compatible_passphrase_length p2 hp2
    rcases read_decrypted_on_saved fs path obj p fs2 hsave p2 hk2 with ⟨n0, hn, hread⟩
    have hbk : ∀ x ∈ get_compatible_passphrase p, x < 257 := fun x hx =>
      Nat.lt_trans (hpb x (get_compatible_passphrase_mem p x hx)) (by omega)
    have hbk2 : ∀ x ∈ get_compatible_passphrase p2, x < 257 := fun x hx =>
      Nat.lt_trans (hp2b x (get_compatible_passphrase_mem p2 x hx)) (by omega)
    have hopen := aeadOpen_ne_key Algo.chacha20poly1305
      (get_compatible_passphrase p) (get_compatible_passphrase p2)
      (advance n0) (advance n0) obj (hk.trans hk2.symm) hbk hbk2 hne
    rw [hread, hopen]

/-- C1 witness: a concrete round trip and a concrete rejection. -/
theorem c1_witness :
    read_decrypted ((save_encrypted emptyFs "f" [5] [7]).2) "f" [7] = .ok [5] ∧
    read_decrypted ((save_encrypted emptyFs "f" [5] [7]).2) "f" [8]
      = .error .wrongPassphrase := by
  have h := c1_save_read_roundtrip emptyFs "f" [5] [7] [8]
    ((save_encrypted emptyFs "f" [5] [7]).2) (by decide) (by decide) rfl
  exact ⟨h.1, h.2 (by decide) (by decide) (by decide)⟩

/-- C3 counterexample: saving to a fresh path seals the single frame with
nonce 1 (it opens with nonce 1 and with no other value shown), while the
trailing 16-byte suffix parses to 0 — the suffix records the counter
before its pre-seal advance, not the frame nonce, and 0 is not 1. -/
theorem c3_counterexample :
    (save_encrypted emptyFs "db" [2, 3] [9]).2 "db"
      = some (aeadSeal .chacha20poly1305 (get_compatible_passphrase [9]) 1 [2, 3]
          ++ beBytesN 16 0) ∧
    parseBe (beBytesN 16 0) = 0 ∧
    aeadOpen .chacha20poly1305 (get_compatible_passphrase [9]) 1
      (aeadSeal .chacha20poly1305 (get_compatible_passphrase [9]) 1 [2, 3])
      = some [2, 3] ∧
    aeadOpen .chacha20poly1305 (get_compatible_passphrase [9]) 0
      (aeadSeal .chacha20poly1305 (get_compatible_passphrase [9]) 1 [2, 3])
      = none ∧
    (0 : Nat) ≠ 1 := by
  refine ⟨rfl, by decide, aeadOpen_aeadSeal _ _ _ _, ?_, by decide⟩
  decide

/-- C3 amended: the 16-byte big-endian suffix written by a successful save
equals the counter value `n0` recovered by `get_next_nonce_from_file`, and
the file's single frame is sealed with `advance n0`; for a fresh path
`n0 = 0` and the frame nonce is 1; for an existing readable file with
stored suffix `s`, `n0 = advance s + 1` (each advance wrapping to 1 at
2^96). -/
theorem c3_amended_nonce_layout (fs : Fs) (path : String) (obj pass : List Nat)
    (fs2 : Fs) (hsave : save_encrypted fs path obj pass = (.ok (), fs2)) :
    ∃ n0, get_next_nonce_from_file pass fs path = .ok n0 ∧
      fs2 path = some (aeadSeal .chacha20poly1305 (get_compatible_passphrase pass)
        (advance n0) obj ++ beBytesN 16 n0) ∧
      parseBe (beBytesN 16 n0) = n0 ∧
      (fs path = none → n0 = 0 ∧ advance n0 = 1) ∧
      (∀ d, fs path = some d → 16 ≤ d.length →
        n0 = advance (parseBe (d.drop (d.length - 16))) + 1) := by
  rcases save_encrypted_layout fs path obj pass fs2 hsave with ⟨n0, hn, hkey, hfs2, hlook⟩
  have hn0 : n0 ≤ 2 ^ 96 := get_next_nonce_le pass fs path n0 hn
  refine ⟨n0, hn, hlook, ?_, ?_, ?_⟩
  · rw [parseBe_beBytesN]
    have hlt : n0 < 256 ^ 16 := by
      have he : (256 : Nat) ^ 16 = 2 ^ 128 := by norm_num
      have h96 : (2 : Nat) ^ 96 < 2 ^ 128 := by norm_num
      omega
    exact Nat.mod_eq_of_lt hlt
  · intro hnone
    unfold get_next_nonce_from_file at hn
    rw [hnone] at hn
    simp at hn
    constructor
    · omega
    · rw [← hn]
      decide
  · intro d hd hdlen
    unfold get_next_nonce_from_file at hn
    split at hn
    · rename_i hnone
      rw [hd] at hnone
      simp at hnone
    · rename_i data hdata
      rw [hd] at hdata
      have hdd : d = data := by
        injection hdata
      subst hdd
      split at hn
      · simp at hn
      · split at hn <;> simp at hn <;> omega

/-- C3 amended witness: a concrete fresh save, with suffix 0, frame nonce
`advance 0 = 1`. -/
theorem c3_amended_witness :
    get_next_nonce_from_file [3] emptyFs "g" = .ok 0 ∧
    (save_encrypted emptyFs "g" [8] [3]).2 "g"
      = some (aeadSeal .chacha20poly1305 (get_compatible_passphrase [3])
          (advance 0) [8] ++ beBytesN 16 0) ∧
    advance 0 = 1 := by
  obtain ⟨n0, h1, h2, _, h4, _⟩ := c3_amended_nonce_layout emptyFs "g" [8] [3]
    ((save_encrypted emptyFs "g" [8] [3]).2) rfl
  have hz : n0 = 0 := (h4 rfl).1
  subst hz
  exact ⟨h1, h2, (h4 rfl).2⟩

/-- C4: if the target path exists but nonce recovery (AEAD re-opening of
its contents under its trailing 16 bytes) fails, the save returns the
cannot-reuse error and the file system — in particular the existing file —
is returned exactly as it was: `File::create` is only reached after
`get_next_nonce_from_file` has succeeded, so no truncation or partial
write occurs. -/
theorem c4_save_refuses_corrupt_existing (fs : Fs) (path : String)
    (obj pass : List Nat) (hp : pass ≠ [])
    (hex : get_next_nonce_from_file pass fs path
      = .error .cannotGetNonceFromExistingFile) :
    save_encrypted fs path obj pass
      = (.error .cannotGetNonceFromExistingFile, fs) := by
  have hk : (get_compatible_passphrase pass).length = keyLen :=
    get_compatible_passphrase_length pass hp
  unfold save_encrypted
  rw [if_pos hk, hex]

/-- C4 witness: a file whose trailing 16 suffix bytes were tampered with
(5 instead of the 0 recorded for its nonce-1 frame) makes the save fail
and leaves the file system untouched. -/
theorem c4_witness :
    save_encrypted corruptFs "f" [1] [7]
      = (.error .cannotGetNonceFromExistingFile, corruptFs) := by
  exact c4_save_refuses_corrupt_existing corruptFs "f" [1] [7] (by decide) rfl

/-- C2 counterexample: at identical inputs the policy-file envelope
(src/crypto.rs, used via config.rs) and the database-file envelope (the
private one in src/tripwirs.rs, used by gen_db/compare_db) produce
different files: different algorithms, and the database file carries no
16-byte nonce suffix (17 bytes for a 1-byte record versus 33). -/
theorem c2_counterexample :
    (tripwirs_save_encrypted emptyFs "f" [5] [7]).2 "f"
      = some (aeadSeal .aes256gcm (get_aes_256_compatible_passphrase [7]) 1 [5]) ∧
    (save_encrypted emptyFs "f" [5] [7]).2 "f"
      = some (aeadSeal .chacha20poly1305 (get_compatible_passphrase [7]) 1 [5]
          ++ beBytesN 16 0) ∧
    Algo.aes256gcm ≠ Algo.chacha20poly1305 ∧
    (aeadSeal .aes256gcm (get_aes_256_compatible_passphrase [7]) 1 [5]).length = 17 ∧
    (aeadSeal .chacha20poly1305 (get_compatible_passphrase [7]) 1 [5]
      ++ beBytesN 16 0).length = 33 := by
  refine ⟨rfl, rfl, by decide, ?_, ?_⟩
  · rw [aeadSeal_length]
    rfl
  · rw [List.length_append, aeadSeal_length, beBytesN_length]
    rfl

/-- C2 amended: the two persistence paths use different envelopes. The
database save (tripwirs.rs) always seals its single AES-256-GCM frame with
nonce 1 — the sequence is rebuilt at (0,0) on every call — and writes no
nonce suffix; the policy save (crypto.rs) seals a ChaCha20-Poly1305 frame
with the advanced persisted counter and appends the 16-byte big-endian
suffix. -/
theorem c2_amended_envelopes (fs : Fs) (path : String) (obj pass : List Nat)
    (hp : pass ≠ []) :
    (tripwirs_save_encrypted fs path obj pass).2 path
      = some (aeadSeal .aes256gcm (get_aes_256_compatible_passphrase pass) 1 obj) ∧
    (tripwirs_save_encrypted fs path obj pass).1 = .ok () ∧
    nonceVal (nonceSeqStep (0, 0)) = 1 ∧
    (∀ fs2, save_encrypted fs path obj pass = (.ok (), fs2) →
      ∃ n0, get_next_nonce_from_file pass fs path = .ok n0 ∧
        fs2 path = some (aeadSeal .chacha20poly1305 (get_compatible_passphrase pass)
          (advance n0) obj ++ beBytesN 16 n0)) ∧
    Algo.aes256gcm ≠ Algo.chacha20poly1305 := by
  have hk2 : (get_aes_256_compatible_passphrase pass).length = keyLen :=
    get_aes_256_compatible_passphrase_length pass hp
  have hnv : nonceVal (nonceSeqStep (0, 0)) = 1 := by decide
  refine ⟨?_, ?_, hnv, ?_, by decide⟩
  · unfold tripwirs_save_encrypted
    rw [if_pos hk2, hnv]
    simp [fsInsert]
  · unfold tripwirs_save_encrypted
    rw [if_pos hk2]
  · intro fs2 hsave
    rcases save_encrypted_layout fs path obj pass fs2 hsave with ⟨n0, hn, _, _, hlook⟩
    exact ⟨n0, hn, hlook⟩

/-- C2 amended witness: concrete instantiation of the envelope split. -/
theorem c2_amended_witness :
    (tripwirs_save_encrypted emptyFs "g" [4, 4] [9]).2 "g"
      = some (aeadSeal .aes256gcm (get_aes_256_compatible_passphrase [9]) 1 [4, 4]) ∧
    nonceVal (nonceSeqStep (0, 0)) = 1 := by
  have h := c2_amended_envelopes emptyFs "g" [4, 4] [9] (by decide)
  exact ⟨h.1, h.2.2.1⟩

/-- C5 counterexample: on the empty passphrase one iteration of the
length-fit loop appends an empty chunk — the loop body is the identity
while the exit guard stays false — so the Rust while-loop never reaches 32
bytes; the fuelled embedding accordingly never produces a 32-byte key. -/
theorem c5_counterexample :
    ([] : List Nat) ++ ([] : List Nat).take (fitChunk 0 0) = ([] : List Nat) ∧
    fitLoop 1 [] [] = ([] : List Nat) ∧
    ([] : List Nat).length ≠ keyLen ∧
    (get_compatible_passphrase []).length ≠ keyLen := by
  refine ⟨by decide, by decide, by decide, by decide⟩

/-- C5 amended: for every nonempty passphrase the length-fit result has
exactly 32 bytes (and is a deterministic function of the passphrase
bytes); a passphrase of 32 bytes or more is truncated to its first 32
bytes; and the per-iteration chunk equals
min(original length, 32 - current length). The empty passphrase is
excluded: there the loop of the code diverges. -/
theorem c5_amended_length_fit (p : List Nat) (hp : p ≠ []) :
    (get_compatible_passphrase p).length = keyLen ∧
    (keyLen ≤ p.length → get_compatible_passphrase p = p.take keyLen) ∧
    (∀ o s : Nat, s < keyLen → fitChunk o s = min o (keyLen - s)) := by
  refine ⟨get_compatible_passphrase_length p hp, ?_, ?_⟩
  · intro hle
    unfold get_compatible_passphrase
    rw [if_neg (by omega)]
  · intro o s hs
    simp only [fitChunk, keyLen] at *
    split <;> omega

/-- C5 amended witness: a concrete three-byte passphrase fits to 32 bytes,
and a concrete long passphrase is truncated. -/
theorem c5_amended_witness :
    (get_compatible_passphrase [97, 98, 99]).length = keyLen ∧
    fitChunk 3 30 = min 3 (keyLen - 30) := by
  have h := c5_amended_length_fit [97, 98, 99] (by decide)
  exact ⟨h.1, h.2.2 3 30 (by decide)⟩

/-- C6: the recorded content hash is the unkeyed XXH3-64 digest of the
file's byte stream. `get_filehash` (and hence the database entry built by
`scan_path`) takes no policy and no secret — the hasher is constructed
with `Xxh3::new()` — so the hash is a function of the content alone, and
the 1 KiB buffered streaming equals digesting the whole content. The
192-byte `Config.secret` generated by config.rs is read by no function in
the sources. -/
theorem c6_unkeyed_hash_eval :
    (∀ c : List Nat, hashStream c = xxh3Digest c) ∧
    get_filehash fs6 "/t" = .ok (hashStream [10, 20]) ∧
    scan_path 3 cfg6 fs6 "/t" []
      = some (.ok [("/t", NodeType.F (hashStream [10, 20]))]) := by
  exact ⟨hashStream_eq, rfl, rfl⟩

/-- C7 counterexample: the scanner never tests for symbolic links. A
symlink whose target resolves to a regular file is recorded as a plain
`F`-node whose hash is the digest of the target's content (the target is
read), and a symlink to a directory is enumerated and recursed into (the
target's child is scanned). The database kind for the symlink entry is
`NodeType.F`; no symlink kind exists. -/
theorem c7_counterexample :
    fs7 "/r/ln" = some (FNode.symlink "/t") ∧
    scan_path 4 cfg7 fs7 "/r" []
      = some (.ok [("/r/ln", NodeType.F (hashStream [10, 20]))]) ∧
    fs7 "/s/ld" = some (FNode.symlink "/d") ∧
    scan_path 6 cfg7 fs7 "/s" []
      = some (.ok [("/d/x", NodeType.F (hashStream [3]))]) := by
  exact ⟨rfl, rfl, rfl, rfl⟩

/-- C7 amended: the traversal classifies entries with `is_file` and
`read_dir`, both of which dereference symbolic links: a non-ignored
symlink resolving to a regular file is hashed through its target's
content and inserted as `F`; one resolving to a nonempty directory has
the target's children pushed and is recursed into. -/
theorem c7_amended_symlink_deref (fuel : Nat) (cfg : TripwirsConfig) (fs : WFs)
    (e t : String) (rest : List String) (db : Db)
    (hlink : fs e = some (.symlink t)) (hig : cfg.ignores.contains e = false) :
    (∀ c, resolveNode symlinkFuel fs e = some (.file c) →
      scanLoop (fuel + 1) cfg fs (e :: rest) db
        = scanLoop fuel cfg fs rest (dbInsert db e (NodeType.F (hashStream c)))) ∧
    (∀ ch, resolveNode symlinkFuel fs e = some (.dir ch) → ch ≠ [] →
      scanLoop (fuel + 1) cfg fs (e :: rest) db
        = scanLoop fuel cfg fs (ch.foldl (fun st c => c :: st) rest) db) := by
  have hmem : e ∉ cfg.ignores := by simpa using hig
  constructor
  · intro c hres
    have hif : isFile fs e = true := by unfold isFile; rw [hres]
    have hhash : get_filehash fs e = .ok (hashStream c) := by
      unfold get_filehash readContent
      rw [hres]
    simp [scanLoop, hig, hmem, hif, hhash]
  · intro ch hres hne
    have hif : isFile fs e = false := by unfold isFile; rw [hres]
    have hrd : readDir fs e = .ok ch := by
      unfold readDir
      rw [hres]
    have hlen : ¬ch.length = 0 := by simpa using hne
    simp [scanLoop, hig, hmem, hif, hrd, hlen]

/-- C7 amended witness: the symlink step on the concrete tree. -/
theorem c7_amended_witness :
    scanLoop 2 cfg7 fs7 ["/r/ln"] []
      = scanLoop 1 cfg7 fs7 [] (dbInsert [] "/r/ln" (NodeType.F (hashStream [10, 20]))) := by
  exact (c7_amended_symlink_deref 1 cfg7 fs7 "/r/ln" "/t" [] [] rfl rfl).1 [10, 20] rfl

/-- C8 counterexample: an I/O error while hashing one entry is propagated
by the `?` operator: the scan aborts with an error (the readable sibling
is never processed and no database is produced), `gen_db` fails, and the
same happens in `compare_path`/`compare_db` — the command does not
continue and succeed as claimed. -/
theorem c8_counterexample :
    get_filehash fs8 "/r/bad" = .error () ∧
    scan_path 4 cfg8 fs8 "/r" [] = some (.error ()) ∧
    gen_db 4 cfg8 fs8 = some (.error ()) ∧
    compare_path 4 cfg8 fs8 "/r" [("/r/bad", NodeType.F 0)] [] = some (.error ()) ∧
    compare_db 4 cfg8 fs8 [("/r/bad", NodeType.F 0)] = some (.error ()) := by
  exact ⟨rfl, rfl, rfl, rfl, rfl⟩

/-- C8 amended: a hashing I/O error on a visited file aborts `scan_path`
and `compare_path` (and with them the whole command) via error
propagation; only directory-enumeration errors are skipped, silently, with
the walk continuing. -/
theorem c8_amended_error_propagation (fuel : Nat) (cfg : TripwirsConfig)
    (fs : WFs) (e : String) (rest : List String) (db : Db) (reps : List Report)
    (hig : cfg.ignores.contains e = false) :
    (isFile fs e = true → get_filehash fs e = .error () →
      scanLoop (fuel + 1) cfg fs (e :: rest) db = some (.error ())) ∧
    (∀ old db2, isFile fs e = true → get_filehash fs e = .error () →
      dbRemove db e = (some (NodeType.F old), db2) →
      compareLoop (fuel + 1) cfg fs (e :: rest) db reps = some (.error ())) ∧
    (isFile fs e = false → readDir fs e = .error () →
      scanLoop (fuel + 1) cfg fs (e :: rest) db = scanLoop fuel cfg fs rest db) := by
  have hmem : e ∉ cfg.ignores := by simpa using hig
  refine ⟨?_, ?_, ?_⟩
  · intro hif hhash
    simp [scanLoop, hig, hmem, hif, hhash]
  · intro old db2 hif hhash hrem
    simp [compareLoop, hig, hmem, hif, hrem, hhash]
  · intro hif hrd
    simp [scanLoop, hig, hmem, hif, hrd]

/-- C8 amended witness: the unreadable file aborts the concrete scan. -/
theorem c8_amended_witness :
    scanLoop 1 cfg8 fs8 ["/r/bad"] [] = some (.error ()) := by
  exact (c8_amended_error_propagation 0 cfg8 fs8 "/r/bad" [] [] [] rfl).1 rfl rfl

/-- C9: after the walk, the residue phase of `compare_db` emits exactly
one removal report per key remaining in the database, carrying the
recorded kind — `fileRemoved` with the stored hash for `F h`,
`directoryRemoved` for `D` (the code's node kinds; no symlink kind can be
recorded) — and nothing else; and `compare_db` appends exactly this
residue to the walk's reports. -/
theorem c9_residue_reports (db : Db) (hnd : (db.map (fun kv => kv.1)).Nodup) :
    (∀ k h, (k, NodeType.F h) ∈ db →
      (residueReports db).count (Report.fileRemoved k h) = 1) ∧
    (∀ k, (k, NodeType.D) ∈ db →
      (residueReports db).count (Report.directoryRemoved k) = 1) ∧
    (∀ r ∈ residueReports db,
      (∃ k h, r = Report.fileRemoved k h ∧ (k, NodeType.F h) ∈ db) ∨
      (∃ k, r = Report.directoryRemoved k ∧ (k, NodeType.D) ∈ db)) ∧
    (∀ (fuel : Nat) (cfg : TripwirsConfig) (fs : WFs) (db2 : Db)
        (reps : List Report),
      compareRoots fuel cfg fs cfg.scans db []
        = some (.ok (db2, reps)) →
      compare_db fuel cfg fs db = some (.ok (reps ++ residueReports db2))) := by
  have hinj : Function.Injective (fun kv : String × NodeType =>
      match kv.2 with
      | .F h => Report.fileRemoved kv.1 h
      | .D => Report.directoryRemoved kv.1) := by
    intro kv1 kv2 heq
    obtain ⟨k1, v1⟩ := kv1
    obtain ⟨k2, v2⟩ := kv2
    cases v1 <;> cases v2 <;> simp_all
  have hdbnd : db.Nodup := List.Nodup.of_map _ hnd
  have hresnd : (residueReports db).Nodup := List.Nodup.map hinj hdbnd
  refine ⟨?_, ?_, ?_, ?_⟩
  · intro k h hmem
    exact List.count_eq_one_of_mem hresnd (List.mem_map_of_mem _ hmem)
  · intro k hmem
    exact List.count_eq_one_of_mem hresnd (List.mem_map_of_mem _ hmem)
  · intro r hr
    rcases List.mem_map.mp hr with ⟨⟨k, v⟩, hmem, heq⟩
    cases v with
    | F h => exact Or.inl ⟨k, h, heq.symm, hmem⟩
    | D => exact Or.inr ⟨k, heq.symm, hmem⟩
  · intro fuel cfg fs db2 reps hruns
    unfold compare_db
    rw [hruns]

/-- C9 witness: the residue of a concrete two-entry database. -/
theorem c9_witness :
    (residueReports [("a", NodeType.F 3), ("b", NodeType.D)]).count
      (Report.fileRemoved "a" 3) = 1 ∧
    (residueReports [("a", NodeType.F 3), ("b", NodeType.D)]).count
      (Report.directoryRemoved "b") = 1 := by
  have h := c9_residue_reports [("a", NodeType.F 3), ("b", NodeType.D)] (by decide)
  exact ⟨h.1 "a" 3 (by decide), h.2.1 "b" (by decide)⟩

/-- C10: a line toggles the parser mode exactly when it is one of the four
header byte strings immediately followed by a newline; any other
non-comment, non-blank line — including a header token delivered as the
final line without a trailing newline, or one with extra trailing
whitespace — leaves the mode unchanged and is inserted, minus trailing
newlines, into the currently active collection. -/
theorem c10_header_recognition (m : ActionType) (c : Config) (line : List Char) :
    (line = "[SCAN]\n".toList ∨ line = "[scan]\n".toList →
      gen_config_step (m, c) line = (.scan, c)) ∧
    (line = "[IGNORE]\n".toList ∨ line = "[ignore]\n".toList →
      gen_config_step (m, c) line = (.ignore, c)) ∧
    (line ∉ headerLines → isComment line = false → isBlank line = false →
      (gen_config_step (m, c) line).1 = m ∧
      (m = .scan → (gen_config_step (m, c) line).2
        = { c with scans := c.scans ++ [trimEndNewlines line] }) ∧
      (m = .ignore → (gen_config_step (m, c) line).2
        = { c with ignores :=
            if c.ignores.contains (trimEndNewlines line) then c.ignores
            else c.ignores ++ [trimEndNewlines line] })) := by
  refine ⟨?_, ?_, ?_⟩
  · rintro (h | h) <;> subst h <;>
      simp only [gen_config_step] <;>
      rw [if_neg (by decide), if_pos (by decide)]
  · rintro (h | h) <;> subst h <;>
      simp only [gen_config_step] <;>
      rw [if_neg (by decide), if_neg (by decide), if_pos (by decide)]
  · intro hmem hcom hblank
    have hs1 : ¬(line = "[SCAN]\n".toList ∨ line = "[scan]\n".toList) := by
      simp only [headerLines, List.mem_cons, List.mem_singleton] at hmem
      tauto
    have hs2 : ¬(line = "[IGNORE]\n".toList ∨ line = "[ignore]\n".toList) := by
      simp only [headerLines, List.mem_cons, List.mem_singleton] at hmem
      tauto
    simp only [gen_config_step, hcom, hblank]
    rw [if_neg (by simp), if_neg hs1, if_neg hs2]
    cases m <;> simp

/-- C10 witness: a header token as final line without its newline, and one
with a trailing space, are inserted verbatim (minus trailing newlines)
without toggling; the exact header line toggles. -/
theorem c10_witness :
    (gen_config_step (ActionType.scan, ⟨[], [], []⟩) "[IGNORE]".toList).1
      = ActionType.scan ∧
    (gen_config_step (ActionType.scan, ⟨[], [], []⟩) "[IGNORE]".toList).2
      = ⟨[], ["[IGNORE]".toList], []⟩ ∧
    (gen_config_step (ActionType.scan, ⟨[], [], []⟩) "[IGNORE] \n".toList).2
      = ⟨[], ["[IGNORE] ".toList], []⟩ ∧
    gen_config_step (ActionType.scan, ⟨[], [], []⟩) "[IGNORE]\n".toList
      = (ActionType.ignore, ⟨[], [], []⟩) := by
  have h1 := c10_header_recognition ActionType.scan ⟨[], [], []⟩ ("[IGNORE]".toList)
  have h2 := c10_header_recognition ActionType.scan ⟨[], [], []⟩ ("[IGNORE] \n".toList)
  have h3 := c10_header_recognition ActionType.scan ⟨[], [], []⟩ ("[IGNORE]\n".toList)
  refine ⟨(h1.2.2 (by decide) (by decide) (by decide)).1, ?_, ?_, h3.2.1 (Or.inl rfl)⟩
  · rw [(h1.2.2 (by decide) (by decide) (by decide)).2.1 rfl]
    decide
  · rw [(h2.2.2 (by decide) (by decide) (by decide)).2.1 rfl]
    decide
